import Mathlib

/-!
Shallow embedding of the SafeRedisLock queue-lock protocol from
`SafeRedisLock/__init__.py`.

Timestamps (Python floats from `time.time()`) are modelled as integers
(think of an exact clock in sufficiently fine ticks): every claim about
timestamps concerns only subtraction and ordering, never fractional
values, and integer arithmetic is exactly computable in the kernel.
The Redis list stored under the lock key is modelled as a `List Ticket`,
where a `Ticket` is the parsed form of the serialized string
`"<ownerID>__<issuedAt>"`; the string-level serialization and its split
are modelled separately at the character-list level (see `splitUU`),
where the delimiter discipline that justifies the parsed form is proved.

Each Redis command used by the code is modelled as a pure transformation
of the list (`LREM` with count 0 removes all occurrences equal to the
value, `RPUSH` appends at the tail, `LINSERT ... BEFORE` inserts before
the first occurrence of the pivot, `DEL` empties the key).
-/

namespace SafeRedisLock

/-- A queue entry under the lock key: the parsed form of a serialized
ticket `"<ownerID>__<issuedAt>"` (built at `acquire` line 183 as
`"%s__%f" % (self.uuid, now)`). -/
structure Ticket where
  owner : String
  ts : ℤ
  deriving DecidableEq, Repr

/-- The per-contender session state of a `SafeRedisLock` object
(fields set in `__init__`, mutated by `acquire` / `release` / `clear`). -/
structure Session where
  key : String
  globalTimeout : ℤ
  pollInterval : ℤ
  uuid : String
  acquiredAt : Option ℤ
  lockTimestamp : Option ℤ
  deriving DecidableEq, Repr

/-- Redis `LREM key 0 value`: removes every element equal to `value`
(the order of the remaining elements is preserved). -/
def pyLrem (q : List Ticket) (t : Ticket) : List Ticket :=
  q.filter (fun x => x ≠ t)

/-- Redis `RPUSH key value`: appends at the tail. -/
def pyRpush (q : List Ticket) (t : Ticket) : List Ticket :=
  q ++ [t]

/-- Redis `LINSERT key BEFORE pivot value`: inserts `newT` before the
first occurrence of `pivot`; if `pivot` is absent, the list is
unchanged. -/
def pyLinsertBefore : List Ticket → Ticket → Ticket → List Ticket
  | [], _, _ => []
  | x :: rest, pivot, newT =>
    if x = pivot then newT :: x :: rest
    else x :: pyLinsertBefore rest pivot newT

/-- Model of `SafeRedisLock._hasLockPlusKey` (lines 391-413): reads the head of
the list (`lrange key 0 0`), returns `(False, None)` when empty;
otherwise compares the head's ownerID against `self.uuid` and, when
`globalTimeout` is nonzero, requires `now - issuedAt < globalTimeout`
(strict `<`, line 409). -/
def hasLockPlusKey (s : Session) (q : List Ticket) (now : ℤ) :
    Bool × Option Ticket :=
  match q with
  | [] => (false, none)
  | h :: _ =>
    if h.owner = s.uuid then
      if s.globalTimeout = 0 then (true, some h)
      else if now - h.ts < s.globalTimeout then (true, some h)
      else (false, some h)
    else (false, some h)

/-- Model of `SafeRedisLock.secondsRemaining` (lines 294-299): computes
`self.lockTimestamp - (time.time() - self.globalTimeout)`; the bare
`except` turns the `TypeError` raised when `lockTimestamp` is `None`
into a `None` result.  `globalTimeout` is always a number, so
`lockTimestamp` being unset is the only way the computation fails. -/
def secondsRemaining (s : Session) (now : ℤ) : Option ℤ :=
  match s.lockTimestamp with
  | none => none
  | some lt => some (lt - (now - s.globalTimeout))

/-- One Redis command as issued by the client; `batch` is a pipeline
(`conn.pipeline()` ... `pipeline.execute()`), executed atomically. -/
inductive Cmd where
  | lrem : Ticket → Cmd
  | rpush : Ticket → Cmd
  | linsertBefore : Ticket → Ticket → Cmd
  | delKey : Cmd
  | batch : List Cmd → Cmd

/-- Model of `SafeRedisLock.release` (lines 260-284): reads the whole list,
removes (each by its own `lrem` call) every item whose ownerID part
equals `self.uuid`, returns whether anything was removed, and sets
`self.lockTimestamp = None`.  `self.acquiredAt` is not touched. -/
def release (s : Session) (q : List Ticket) : Bool × List Ticket × Session :=
  (q.any (fun t => t.owner = s.uuid),
   q.filter (fun t => t.owner ≠ s.uuid),
   { s with lockTimestamp := none })

/-- The write commands `release` issues against Redis: one separate
`conn.lrem(self.key, item)` per matching item of the snapshot
(lines 276-280); there is no pipeline in `release`. -/
def releaseCmds (s : Session) (q : List Ticket) : List Cmd :=
  (q.filter (fun t => t.owner = s.uuid)).map Cmd.lrem

/-- Model of `SafeRedisLock.clear` (lines 301-310): `conn.delete(self.key)` and
`self.acquiredAt = self.lockTimestamp = None`. -/
def clear (s : Session) (_q : List Ticket) : Session × List Ticket :=
  ({ s with acquiredAt := none, lockTimestamp := none }, [])

/-- Model of `SafeRedisLock._setGotLock` (lines 331-336):
`self.acquiredAt = time.time(); self.lockTimestamp = self.acquiredAt`. -/
def setGotLock (s : Session) (now : ℤ) : Session :=
  { s with acquiredAt := some now, lockTimestamp := some now }

/-- Model of `SafeRedisLock.__updateLockTimestamp` (lines 313-329): sets
`self.lockTimestamp` to a fresh time, builds the new ticket from the
unchanged `self.uuid` and that time, then atomically (one pipeline)
inserts the new ticket before the old one and removes the old one. -/
def updateLockTimestamp (s : Session) (oldKey : Ticket) (q : List Ticket)
    (now : ℤ) : Session × List Ticket :=
  ({ s with lockTimestamp := some now },
   pyLrem (pyLinsertBefore q oldKey ⟨s.uuid, now⟩) oldKey)

/-- The commands `__updateLockTimestamp` issues: a single pipeline
holding the `linsert ... BEFORE` and the `lrem` (lines 326-329). -/
def updateLockTimestampCmds (oldKey newKey : Ticket) : List Cmd :=
  [Cmd.batch [Cmd.linsertBefore oldKey newKey, Cmd.lrem oldKey]]

/-- The fast path at the top of `SafeRedisLock.acquire`
(lines 169-175): when `_hasLockPlusKey` reports the lock held, refresh
the head ticket via `__updateLockTimestamp` and return `True`
(modelled as `some` of the new session and queue); otherwise (`none`)
the slow path runs. -/
def acquireFastPath (s : Session) (q : List Ticket) (now nowR : ℤ) :
    Option (Session × List Ticket) :=
  match hasLockPlusKey s q now with
  | (true, some old) => some (updateLockTimestamp s old q nowR)
  | _ => none

/-- The expiry-sweep walk of `acquire` (lines 230-247), run on the
snapshot `allKeys` once the head was found stale: walking from the
head, `some rem` means the session's own ticket was reached and `rem`
(everything walked past) is removed, each entry by its own `lrem`;
`none` means the walk stopped first at an entry with
`now - issuedAt < globalTimeout` (line 246, `break`) — or ran out of
entries — and nothing is removed. -/
def sweepWalk (tk : Ticket) (T now : ℤ) : List Ticket → Option (List Ticket)
  | [] => none
  | t :: rest =>
    if t = tk then some []
    else if now - t.ts < T then none
    else (sweepWalk tk T now rest).map (fun rem => t :: rem)

/-- Net effect `removeEach q rem` of the sweep's sequence of
`conn.lrem(key, allKeys[j])` calls (line 238), each of which removes
all occurrences of that value. -/
def removeEach (q : List Ticket) (rem : List Ticket) : List Ticket :=
  q.filter (fun t => t ∉ rem)

/-- What one pass of `acquire`'s polling loop observes from the store.
Each field is one read: `q1` the list behind the first head read
(line 195), `q2` the list behind the re-read after the heal-repush
(line 200, only consulted when `q1` was empty), `qAll` the full-range
read in the stale branch (line 223), `now` the `time.time()` at
line 218 (also standing for the keep-going check's clock), and `nowR`
the fresh time used by `__updateLockTimestamp` on success.  Separate
fields allow for concurrent mutation by other sessions between reads. -/
structure Obs where
  q1 : List Ticket
  q2 : List Ticket
  qAll : List Ticket
  now : ℤ
  nowR : ℤ
  deriving DecidableEq, Repr

/-- Outcome of one pass of the polling loop body (lines 193-247),
before the non-blocking check at line 249: `success` = returned `True`;
`fatal` = raised `Exception('Redis is not behaving.')`; `retry` = the
`continue` at line 227 (own ticket vanished, re-pushed); `notYet` = the
pass fell through to the non-blocking / sleep logic.  Each constructor
carries the queue as left by that pass. -/
inductive IterOut where
  | success : List Ticket → IterOut
  | fatal : List Ticket → IterOut
  | retry : List Ticket → IterOut
  | notYet : List Ticket → IterOut
  deriving DecidableEq, Repr

/-- Queue effect of `__updateLockTimestamp` on success paths of the
loop: insert the freshly stamped ticket before the old own ticket,
then remove the old one. -/
def refreshQueue (uuid : String) (q : List Ticket) (tk : Ticket)
    (nowR : ℤ) : List Ticket :=
  pyLrem (pyLinsertBefore q tk ⟨uuid, nowR⟩) tk

/-- The loop body after a head ticket `h` was obtained from queue
snapshot `q` (lines 209-247): success when `h` is the own ticket;
otherwise, when `globalTimeout` is nonzero and the head is stale
(`now - issuedAt > globalTimeout`, strict, line 221), read the full
list — if the own ticket vanished, re-push it and `continue`
(line 227); else run the sweep walk.  In every other case fall
through (`notYet`). -/
def afterHead (uuid : String) (T : ℤ) (tk : Ticket) (o : Obs)
    (q : List Ticket) (h : Ticket) : IterOut :=
  if h = tk then .success (refreshQueue uuid q tk o.nowR)
  else if T ≠ 0 ∧ o.now - h.ts > T then
    if tk ∈ o.qAll then
      match sweepWalk tk T o.now o.qAll with
      | some rem => .success (refreshQueue uuid (removeEach o.qAll rem) tk o.nowR)
      | none => .notYet o.qAll
    else .retry (pyRpush o.qAll tk)
  else .notYet q

/-- One full pass of the polling loop body (lines 193-247): the first
head read (`q1`); when it is empty, the heal sequence — `lrem` own,
`rpush` own, re-read (`q2`) — and, when the re-read is empty too, the
fatal `Exception('Redis is not behaving.')` after a best-effort `lrem`
(lines 196-206). -/
def acquireIter (uuid : String) (T : ℤ) (tk : Ticket) (o : Obs) : IterOut :=
  match o.q1 with
  | h :: _ => afterHead uuid T tk o o.q1 h
  | [] =>
    match o.q2 with
    | h :: _ => afterHead uuid T tk o o.q2 h
    | [] => .fatal (pyLrem o.q2 tk)

/-- Overall result of the slow path of `acquire`: returned `True`
(`got`), returned `False` after `conn.lrem(key, timestampedKey)`
(`gaveUp`), or raised (`storeMisbehaving`); each carries the final
queue. -/
inductive AcqResult where
  | got : List Ticket → AcqResult
  | gaveUp : List Ticket → AcqResult
  | storeMisbehaving : List Ticket → AcqResult
  deriving DecidableEq, Repr

/-- The slow-path polling loop of `acquire` (lines 188-258) driven by a
finite schedule of observations, one per pass.  The guard mirrors
`keepGoing` (lines 188-191): with a nonzero `blockingTimeout` the loop
exits — removing the own ticket and returning `False` (line 257) — as
soon as `now - start < blockingTimeout` fails; with `blockingTimeout`
zero the guard is constantly true.  A `notYet` pass in non-blocking
mode removes the own ticket and returns `False` (lines 249-252); a
`retry` pass goes straight back to the guard (the `continue` at
line 227 skips the non-blocking check).  `none` means the schedule
ended with the loop still running. -/
def acquireLoop (uuid : String) (T : ℤ) (tk : Ticket) (blocking : Bool)
    (bTimeout start : ℤ) : List Obs → Option AcqResult
  | [] => none
  | o :: rest =>
    if bTimeout ≠ 0 ∧ bTimeout ≤ o.now - start then
      some (.gaveUp (pyLrem o.q1 tk))
    else
      match acquireIter uuid T tk o with
      | .success q' => some (.got q')
      | .fatal q' => some (.storeMisbehaving q')
      | .retry _ => acquireLoop uuid T tk blocking bTimeout start rest
      | .notYet q' =>
        if blocking then acquireLoop uuid T tk blocking bTimeout start rest
        else some (.gaveUp (pyLrem q' tk))

/-- A session-level operation, for tracking how `acquiredAt` and
`lockTimestamp` evolve across a session's lifetime: a successful
acquisition at time `t` (`_setGotLock`), a `release`, or a `clear`. -/
inductive SOp where
  | acquireOk : ℤ → SOp
  | releaseOp : SOp
  | clearOp : SOp
  deriving DecidableEq, Repr

/-- Session-state effect of one operation (the queue argument of
`release` / `clear` does not influence their session effect). -/
def applyOp (s : Session) : SOp → Session
  | .acquireOk t => setGotLock s t
  | .releaseOp => (release s []).2.2
  | .clearOp => (clear s []).1

/-- Replay a list of session-level operations from a starting state. -/
def runOps (s : Session) (ops : List SOp) : Session :=
  ops.foldl applyOp s

/-- Whether the trace contains at least one successful acquisition. -/
def everHeld (ops : List SOp) : Bool :=
  ops.any (fun op => match op with | .acquireOk _ => true | _ => false)

/-- A fresh session as built by `__init__` (lines 128-153):
`acquiredAt` and `lockTimestamp` start as `None`. -/
def initSession (key : String) (T pollI : ℤ) (uuid : String) : Session :=
  ⟨key, T, pollI, uuid, none, none⟩

/-! ## String level: ticket serialization and `str.split`

The serialized ticket is `"%s__%f" % (ownerID, issuedAt)` and every
reader recovers the parts with `.split('__')` (lines 219, 233, 277,
405).  Python's `split` cuts at each leftmost non-overlapping
occurrence of the separator; `SafeRedisLock` always unpacks the result
into exactly two variables, which raises unless the split produced
exactly two parts.  This is modelled on character lists. -/

/-- Python `s.split('__')` on a character list: cut at each leftmost
non-overlapping occurrence of `"__"`. -/
def splitUU : List Char → List (List Char)
  | [] => [[]]
  | [c] => [[c]]
  | c1 :: c2 :: rest =>
    if c1 = '_' ∧ c2 = '_' then [] :: splitUU rest
    else
      match splitUU (c2 :: rest) with
      | [] => [[c1]]
      | p :: ps => (c1 :: p) :: ps

/-- Whether the list contains two adjacent underscores (an occurrence
of the delimiter `"__"`). -/
def hasAdjUU : List Char → Bool
  | c1 :: c2 :: rest => (c1 = '_' && c2 = '_') || hasAdjUU (c2 :: rest)
  | _ => false

/-- Model of `SafeRedisLock._genUuid` (lines 338-349):
`"%s+%s%s" % (MY_HOSTNAME, uuid4, uuid4)` — the stable host token, a
`'+'`, and two random identifiers. -/
def genUuidL (host u1 u2 : List Char) : List Char :=
  host ++ '+' :: (u1 ++ u2)

/-- The serialized ticket `"%s__%f" % (ownerID, issuedAt)` (line 183),
with the formatted timestamp abstracted as a character list. -/
def mkTimestampedKeyL (owner tsStr : List Char) : List Char :=
  owner ++ '_' :: '_' :: tsStr

/-- Model of `(ownerUuid, ownerTimestamp) = serialized.split('__')` (line 219
and friends): succeeds exactly when the split yields two parts,
otherwise Python raises a `ValueError`. -/
def parseTicketL (sk : List Char) : Option (List Char × List Char) :=
  match splitUU sk with
  | [a, b] => some (a, b)
  | _ => none

/-- The hasLock property exactly as the specification words it
(claim C1): the head ticket's ownerID matches and either
`globalTimeout == 0` or the head ticket is not yet stale, where stale
means `now - issuedAt > globalTimeout` (strictly greater). -/
def specHasLock (s : Session) (q : List Ticket) (now : ℤ) : Prop :=
  ∃ h rest, q = h :: rest ∧ h.owner = s.uuid ∧
    (s.globalTimeout = 0 ∨ ¬(now - h.ts > s.globalTimeout))

/-! ## Helper lemmas -/

lemma not_mem_pyLrem (q : List Ticket) (t : Ticket) : t ∉ pyLrem q t := by
  simp [pyLrem, List.mem_filter]

lemma afterHead_ne_fatal (uuid : String) (T : ℤ) (tk : Ticket) (o : Obs)
    (q : List Ticket) (h : Ticket) (fq : List Ticket) :
    afterHead uuid T tk o q h ≠ .fatal fq := by
  unfold afterHead
  split_ifs <;> first
    | exact fun hcon => IterOut.noConfusion hcon
    | (cases sweepWalk tk T o.now o.qAll <;>
        exact fun hcon => IterOut.noConfusion hcon)

/-! ## Claim theorems -/

/-- C10: with an empty queue under the lock name (which is also how
Redis presents a missing key to `lrange`), `_hasLockPlusKey` returns
`(False, None)` — `hasLock` is false and there is no head owner.  The
model is a total function, so no exception is raised on this path. -/
theorem hasLock_empty_queue (s : Session) (now : ℤ) :
    hasLockPlusKey s [] now = (false, none) := rfl

/-- C1, counterexample: at the exact boundary `now - issuedAt ==
globalTimeout` the code's check `now - issuedAt < globalTimeout`
(line 409) fails, so `hasLock` is `False` for the matching owner even
though the claim (ticket stale only when strictly greater, hence still
held at equality) predicts `True`: the claimed equivalence is false at
this input. -/
theorem hasLock_boundary_cex :
    ¬ (((hasLockPlusKey ⟨"k", 10, 1, "me", none, none⟩ [⟨"me", 0⟩] 10).1 = true) ↔
        specHasLock ⟨"k", 10, 1, "me", none, none⟩ [⟨"me", 0⟩] 10) := by
  intro hiff
  have hclaim : specHasLock ⟨"k", 10, 1, "me", none, none⟩ [⟨"me", 0⟩] 10 :=
    ⟨⟨"me", 0⟩, [], rfl, rfl, Or.inr (by decide)⟩
  exact absurd (hiff.mpr hclaim) (by decide)

/-- C1, amended: `hasLock` re-reads the head ticket and is true iff the
head's ownerID equals this session's identity and either
`globalTimeout == 0` or `now - issuedAt < globalTimeout` (strictly
less, so at `now - issuedAt == globalTimeout` the lock is already
reported lost). -/
theorem hasLock_iff (s : Session) (q : List Ticket) (now : ℤ) :
    (hasLockPlusKey s q now).1 = true ↔
      ∃ h rest, q = h :: rest ∧ h.owner = s.uuid ∧
        (s.globalTimeout = 0 ∨ now - h.ts < s.globalTimeout) := by
  cases q with
  | nil => simp [hasLockPlusKey]
  | cons h rest =>
    show (if h.owner = s.uuid then
        if s.globalTimeout = 0 then (true, some h)
        else if now - h.ts < s.globalTimeout then (true, some h)
        else (false, some h)
      else (false, some h)).1 = true ↔ _
    split_ifs with h1 h2 h3
    · exact iff_of_true rfl ⟨h, rest, rfl, h1, Or.inl h2⟩
    · exact iff_of_true rfl ⟨h, rest, rfl, h1, Or.inr h3⟩
    · refine iff_of_false (by simp) ?_
      rintro ⟨h', rest', heq, hown, hor⟩
      obtain ⟨rfl, rfl⟩ : h = h' ∧ rest = rest' := by
        injection heq with e1 e2; exact ⟨e1, e2⟩
      rcases hor with hz | hlt
      · exact h2 hz
      · exact h3 hlt
    · refine iff_of_false (by simp) ?_
      rintro ⟨h', rest', heq, hown, hor⟩
      obtain ⟨rfl, rfl⟩ : h = h' ∧ rest = rest' := by
        injection heq with e1 e2; exact ⟨e1, e2⟩
      exact h1 hown

/-- C3, counterexample: `clear` (line 310) sets
`self.acquiredAt = self.lockTimestamp = None`, so after a successful
acquisition at time 5 a `clear` resets `acquiredAt` to unset, contrary
to the claim that Clear never resets it. -/
theorem acquiredAt_clear_cex :
    ¬ (((clear (setGotLock (initSession "k" 10 1 "me") 5) [⟨"me", 5⟩]).1).acquiredAt
        = (setGotLock (initSession "k" 10 1 "me") 5).acquiredAt) := by
  decide

/-- C3, amended: `acquiredAt` is left unchanged by `release` (which
only clears `lockTimestamp`) and is never touched by lock expiry
(expiry is a passive condition: `_hasLockPlusKey` mutates nothing);
only a successful acquisition (`_setGotLock`) overwrites it — but
`clear` does reset it to unset together with `lockTimestamp`. -/
theorem acquiredAt_sticky_amended (s : Session) (q : List Ticket) (now : ℤ) :
    ((release s q).2.2).acquiredAt = s.acquiredAt ∧
    ((clear s q).1).acquiredAt = none ∧
    (setGotLock s now).acquiredAt = some now :=
  ⟨rfl, rfl, rfl⟩

/-- C8, counterexample: `release` (line 282) sets
`self.lockTimestamp = None`, and `secondsRemaining` returns `None`
exactly when `lockTimestamp` is `None`; so after acquiring at time 5
and then releasing, a ticket *has* been held but `secondsRemaining`
still reports unknown — the claimed "unknown iff never held"
equivalence is false. -/
theorem secondsRemaining_release_cex :
    everHeld [SOp.acquireOk 5, SOp.releaseOp] = true ∧
    secondsRemaining
      (runOps (initSession "k" 10 1 "me") [SOp.acquireOk 5, SOp.releaseOp]) 6 = none := by
  decide

/-- C8, amended: `secondsRemaining` returns
`lockTimestamp - (now - globalTimeout)` whenever `lockTimestamp` is
set, and returns unknown exactly when `lockTimestamp` is unset — which
holds initially (no ticket ever held) but also again after every
`release` (and `clear`), not only when a first acquisition never
occurred. -/
theorem secondsRemaining_amended (s : Session) (now : ℤ) :
    (secondsRemaining s now = none ↔ s.lockTimestamp = none) ∧
    (∀ lt, s.lockTimestamp = some lt →
      secondsRemaining s now = some (lt - (now - s.globalTimeout))) ∧
    (∀ q, secondsRemaining ((release s q).2.2) now = none) := by
  refine ⟨?_, ?_, fun q => rfl⟩
  · rcases hs : s.lockTimestamp with _ | lt <;> simp [secondsRemaining, hs]
  · intro lt hlt
    simp [secondsRemaining, hlt]

/-- C8, witness for the amended theorem at a concrete session. -/
theorem secondsRemaining_amended_witness :
    secondsRemaining (setGotLock (initSession "k" 10 1 "me") 5) 6 =
      some (5 - (6 - 10)) :=
  (secondsRemaining_amended (setGotLock (initSession "k" 10 1 "me") 5) 6).2.1 5 rfl

/-- C4, counterexample: `release` issues one separate
`conn.lrem(self.key, item)` per matching snapshot item (lines 276-280)
with no pipeline, so with two tickets of this session in the queue the
emitted command sequence is two bare `lrem`s — not one atomic batch as
claimed. -/
theorem release_batch_cex :
    ¬ ∃ cs, releaseCmds (initSession "k" 10 1 "me") [⟨"me", 1⟩, ⟨"me", 2⟩] =
        [Cmd.batch cs] := by
  rintro ⟨cs, heq⟩
  have hl : (releaseCmds (initSession "k" 10 1 "me")
      [⟨"me", 1⟩, ⟨"me", 2⟩]).length = 2 := rfl
  rw [heq] at hl
  simp at hl

/-- C4, amended: `release` removes every ticket whose ownerID equals
this session's current identity (all duplicates included), returns
true iff at least one ticket matched, clears `lockTimestamp` and
leaves `acquiredAt` unchanged — but the removals are issued as one
separate (individually atomic) `lrem` command per matching ticket,
not as one atomic batch. -/
theorem release_amended (s : Session) (q : List Ticket) :
    (release s q).2.1 = q.filter (fun t => t.owner ≠ s.uuid) ∧
    ((release s q).1 = true ↔ ∃ t ∈ q, t.owner = s.uuid) ∧
    ((release s q).2.2).lockTimestamp = none ∧
    ((release s q).2.2).acquiredAt = s.acquiredAt ∧
    releaseCmds s q = (q.filter (fun t => t.owner = s.uuid)).map Cmd.lrem := by
  refine ⟨rfl, ?_, rfl, rfl, rfl⟩
  simp [release, List.any_eq_true]

/-- C7: calling `acquire` while `_hasLockPlusKey` reports the lock held
takes the fast path (lines 169-175): it returns `True` (`some`), keeps
the session identity (`self.uuid` is regenerated only on the slow path,
line 178), leaves `acquiredAt` unchanged, records the fresh time in
`lockTimestamp`, and replaces the head ticket — insert-new-before-old
then remove-old, issued as one pipeline (`updateLockTimestampCmds`) —
by a freshly time-stamped ticket bearing the same ownerID. -/
theorem acquire_fast_path (s : Session) (old : Ticket) (rest : List Ticket)
    (now nowR : ℤ) (hHas : (hasLockPlusKey s (old :: rest) now).1 = true)
    (hFresh : nowR ≠ old.ts) :
    acquireFastPath s (old :: rest) now nowR =
      some ({ s with lockTimestamp := some nowR },
            ⟨s.uuid, nowR⟩ :: pyLrem rest old) ∧
    ({ s with lockTimestamp := some nowR } : Session).uuid = s.uuid ∧
    ({ s with lockTimestamp := some nowR } : Session).acquiredAt = s.acquiredAt ∧
    updateLockTimestampCmds old ⟨s.uuid, nowR⟩ =
      [Cmd.batch [Cmd.linsertBefore old ⟨s.uuid, nowR⟩, Cmd.lrem old]] := by
  refine ⟨?_, rfl, rfl, rfl⟩
  have hsnd : (hasLockPlusKey s (old :: rest) now).2 = some old := by
    show (if old.owner = s.uuid then
        if s.globalTimeout = 0 then (true, some old)
        else if now - old.ts < s.globalTimeout then (true, some old)
        else (false, some old)
      else (false, some old)).2 = some old
    split_ifs <;> rfl
  have hpk : hasLockPlusKey s (old :: rest) now = (true, some old) := by
    rcases hq : hasLockPlusKey s (old :: rest) now with ⟨a, b⟩
    rw [hq] at hHas hsnd
    simp only at hHas hsnd
    rw [hHas, hsnd]
  have hne : (⟨s.uuid, nowR⟩ : Ticket) ≠ old :=
    fun he => hFresh (congrArg Ticket.ts he)
  simp only [acquireFastPath, hpk, updateLockTimestamp]
  refine congrArg some (congrArg _ ?_)
  show pyLrem (pyLinsertBefore (old :: rest) old ⟨s.uuid, nowR⟩) old =
    ⟨s.uuid, nowR⟩ :: pyLrem rest old
  rw [pyLinsertBefore, if_pos rfl]
  show List.filter _ (⟨s.uuid, nowR⟩ :: old :: rest) = _
  rw [List.filter_cons_of_pos (by simpa using hne),
    List.filter_cons_of_neg (by simp)]
  rfl

/-- C7, witness: a concrete fast-path refresh. -/
theorem acquire_fast_path_witness :
    acquireFastPath (initSession "k" 10 1 "me") [⟨"me", 0⟩] 1 2 =
      some ({ initSession "k" 10 1 "me" with lockTimestamp := some 2 },
            ⟨"me", 2⟩ :: pyLrem [] ⟨"me", 0⟩) :=
  (acquire_fast_path (initSession "k" 10 1 "me") ⟨"me", 0⟩ [] 1 2
    (by decide) (by decide)).1

/-- C2, counterexample: the sweep walk continues (and later removes)
any entry with `now - issuedAt >= globalTimeout` (the `break` at
line 246 fires only on strict `<`), so an entry whose age is *exactly*
`globalTimeout` — not stale under the claim's strict-greater definition
— is removed: here the head (age 15) is stale, triggering the sweep,
and `⟨"b", 90⟩` (age exactly 10) is removed along with it. -/
theorem sweep_exact_age_cex :
    sweepWalk ⟨"me", 95⟩ 10 100 [⟨"a", 85⟩, ⟨"b", 90⟩, ⟨"me", 95⟩] =
      some [⟨"a", 85⟩, ⟨"b", 90⟩] ∧
    ((100 : ℤ) - 85 > 10) ∧ ¬ ((100 : ℤ) - 90 > 10) := by
  decide

/-- C2, amended: every entry the sweep removes lies strictly ahead of
the session's own ticket and has age at least `globalTimeout`
(`now - issuedAt >= globalTimeout`, i.e. it is not live — but entries
aged exactly `globalTimeout` are removed too); and the walk stops,
removing nothing, as soon as it meets an entry with
`now - issuedAt < globalTimeout` before the session's own ticket. -/
theorem sweepWalk_amended (tk : Ticket) (T now : ℤ) :
    (∀ q rem, sweepWalk tk T now q = some rem →
      (∃ rest, q = rem ++ tk :: rest) ∧
        ∀ t ∈ rem, t ≠ tk ∧ T ≤ now - t.ts) ∧
    (∀ pre t rest, tk ∉ pre → t ≠ tk → now - t.ts < T →
      sweepWalk tk T now (pre ++ t :: rest) = none) := by
  constructor
  · intro q
    induction q with
    | nil => intro rem h; exact absurd h (by simp [sweepWalk])
    | cons a q ih =>
      intro rem h
      rw [sweepWalk] at h
      split_ifs at h with ha hlt
      · subst ha
        obtain rfl : ([] : List Ticket) = rem := by
          injection h
        exact ⟨⟨q, rfl⟩, by simp⟩
      · rcases hmap : sweepWalk tk T now q with _ | rem'
        · rw [hmap] at h; exact absurd h (by simp)
        · rw [hmap] at h
          obtain rfl : a :: rem' = rem := by
            simpa using h
          obtain ⟨⟨rest, hrest⟩, hall⟩ := ih rem' hmap
          refine ⟨⟨rest, by rw [hrest]; rfl⟩, ?_⟩
          intro t ht
          rcases List.mem_cons.mp ht with rfl | ht'
          · exact ⟨ha, not_lt.mp hlt⟩
          · exact hall t ht'
  · intro pre
    induction pre with
    | nil =>
      intro t rest _ htk hlt
      rw [List.nil_append, sweepWalk, if_neg htk, if_pos hlt]
    | cons p pre ih =>
      intro t rest hnm htk hlt
      have hp : p ≠ tk := fun he => hnm (he ▸ List.mem_cons_self p pre)
      have hnm' : tk ∉ pre := fun hm => hnm (List.mem_cons_of_mem p hm)
      rw [List.cons_append, sweepWalk, if_neg hp]
      split_ifs with hplt
      · rfl
      · rw [ih t rest hnm' htk hlt]; rfl

/-- C2, witness for the amended theorem on a concrete sweep. -/
theorem sweepWalk_amended_witness :
    (∃ rest, ([⟨"a", 85⟩, ⟨"me", 95⟩] : List Ticket) =
        [⟨"a", 85⟩] ++ ⟨"me", 95⟩ :: rest) ∧
      ∀ t ∈ ([⟨"a", 85⟩] : List Ticket), t ≠ ⟨"me", 95⟩ ∧ (10 : ℤ) ≤ 100 - t.ts :=
  (sweepWalk_amended ⟨"me", 95⟩ 10 100).1
    [⟨"a", 85⟩, ⟨"me", 95⟩] [⟨"a", 85⟩] (by decide)

/-- C6: inside the slow-path polling loop, a pass raises the fatal
`Exception('Redis is not behaving.')` exactly when the first head read
is empty *and* the single re-read after the heal re-push (lrem own,
rpush own, lrange again, lines 196-206) is empty too; a single empty
read followed by a successful re-read is self-healed — the pass simply
continues on the re-read head, never raising. -/
theorem acquire_empty_heal (uuid : String) (T : ℤ) (tk : Ticket) (o : Obs) :
    ((∃ q, acquireIter uuid T tk o = .fatal q) ↔ o.q1 = [] ∧ o.q2 = []) ∧
    (∀ h t, o.q1 = [] → o.q2 = h :: t →
      acquireIter uuid T tk o = afterHead uuid T tk o o.q2 h) := by
  obtain ⟨q1, q2, qAll, n, nr⟩ := o
  constructor
  · constructor
    · rintro ⟨q, hq⟩
      cases q1 with
      | cons h t => exact absurd hq (afterHead_ne_fatal _ _ _ _ _ _ _)
      | nil =>
        cases q2 with
        | cons h t => exact absurd hq (afterHead_ne_fatal _ _ _ _ _ _ _)
        | nil => exact ⟨rfl, rfl⟩
    · rintro ⟨h1, h2⟩
      subst h1; subst h2
      exact ⟨pyLrem [] tk, rfl⟩
  · intro h t h1 h2
    subst h1; subst h2
    rfl

/-- C6, witness: a double-empty pass is fatal. -/
theorem acquire_empty_heal_witness :
    ∃ q, acquireIter "me" 10 ⟨"me", 0⟩ ⟨[], [], [], 0, 0⟩ = .fatal q :=
  (acquire_empty_heal "me" 10 ⟨"me", 0⟩ ⟨[], [], [], 0, 0⟩).1.mpr ⟨rfl, rfl⟩

/-- C5, counterexample: the `continue` at line 227 (stale head, own
ticket vanished: re-push and retry) jumps back to the loop guard,
skipping the non-blocking give-up check at line 249 — so a
non-blocking `acquire` does *not* decide after exactly one poll: with
one observation it is still running (`none`), and with a second
observation it polls again and only then gives up. -/
theorem acquire_nonblocking_two_polls_cex :
    acquireLoop "me" 10 ⟨"me", 99⟩ false 0 0
        [⟨[⟨"x", 0⟩], [], [⟨"x", 0⟩], 100, 100⟩] = none ∧
    acquireLoop "me" 10 ⟨"me", 99⟩ false 0 0
        [⟨[⟨"x", 0⟩], [], [⟨"x", 0⟩], 100, 100⟩,
         ⟨[⟨"x", 200⟩], [], [], 200, 200⟩] =
      some (.gaveUp [⟨"x", 200⟩]) := by
  decide

/-- C5, amended: whenever the slow path of `acquire` returns `False` —
non-blocking mode at a pass that reaches the give-up check, or
blocking mode once the nonzero `blockingTimeout` has elapsed — it has
just removed every copy of this session's own ticket, so no orphaned
entry remains; and a nonzero `blockingTimeout` bounds the wait: the
loop gives up at the first pass whose clock shows the timeout elapsed.
(Unlike the claim, non-blocking mode may take more than one poll when
the line-227 `continue` fires, and `blockingTimeout = 0` in blocking
mode means no timeout at all.) -/
theorem acquire_give_up_amended (uuid : String) (T : ℤ) (tk : Ticket)
    (blocking : Bool) (bT start : ℤ) :
    (∀ sched qF, acquireLoop uuid T tk blocking bT start sched =
        some (.gaveUp qF) → tk ∉ qF) ∧
    (∀ o rest, bT ≠ 0 → bT ≤ o.now - start →
      acquireLoop uuid T tk blocking bT start (o :: rest) =
        some (.gaveUp (pyLrem o.q1 tk))) := by
  constructor
  · intro sched
    induction sched with
    | nil => intro qF h; exact absurd h (by simp [acquireLoop])
    | cons o rest ih =>
      intro qF h
      rw [acquireLoop] at h
      by_cases hg : bT ≠ 0 ∧ bT ≤ o.now - start
      · rw [if_pos hg] at h
        obtain rfl : pyLrem o.q1 tk = qF := by simpa using h
        exact not_mem_pyLrem _ _
      · rw [if_neg hg] at h
        split at h
        · exact absurd h (by simp)
        · exact absurd h (by simp)
        · exact ih qF h
        · split_ifs at h with hb
          · exact ih qF h
          · obtain rfl : pyLrem _ tk = qF := by simpa using h
            exact not_mem_pyLrem _ _
  · intro o rest h0 hle
    rw [acquireLoop, if_pos ⟨h0, hle⟩]

/-- C5, witness: a concrete blocking run that times out has the own
ticket absent from the final queue. -/
theorem acquire_give_up_witness :
    (⟨"me", 0⟩ : Ticket) ∉ pyLrem [⟨"me", 0⟩, ⟨"x", 1⟩] ⟨"me", 0⟩ :=
  (acquire_give_up_amended "me" 10 ⟨"me", 0⟩ true 5 0).1
    [⟨[⟨"me", 0⟩, ⟨"x", 1⟩], [], [], 7, 7⟩]
    (pyLrem [⟨"me", 0⟩, ⟨"x", 1⟩] ⟨"me", 0⟩) (by decide)

/-! ## Lemmas about `splitUU` for the serialization round-trip -/

lemma splitUU_no_underscore : ∀ (ys : List Char), '_' ∉ ys → splitUU ys = [ys]
  | [], _ => rfl
  | [_], _ => rfl
  | c1 :: c2 :: rest, h => by
    have h1 : c1 ≠ '_' := fun he => h (by rw [he]; exact List.mem_cons_self _ _)
    have ih := splitUU_no_underscore (c2 :: rest)
      (fun hm => h (List.mem_cons_of_mem _ hm))
    rw [splitUU, if_neg (fun hand => h1 hand.1), ih]

lemma splitUU_delim (ys : List Char) (h : '_' ∉ ys) :
    splitUU ('_' :: '_' :: ys) = [[], ys] := by
  rw [splitUU, if_pos ⟨rfl, rfl⟩, splitUU_no_underscore ys h]

/-- Splitting at the delimiter recovers the two parts, provided the
left part holds no `"__"` occurrence and does not end in `'_'`, and
the right part holds no underscore at all. -/
lemma splitUU_append : ∀ (xs ys : List Char),
    hasAdjUU xs = false → xs.getLast? ≠ some '_' → '_' ∉ ys →
    splitUU (xs ++ '_' :: '_' :: ys) = [xs, ys]
  | [], ys, _, _, h3 => by
    rw [List.nil_append, splitUU_delim ys h3]
  | [x], ys, _, h2, h3 => by
    have hx : x ≠ '_' := fun he => h2 (by rw [he]; rfl)
    rw [List.cons_append, List.nil_append, splitUU,
      if_neg (fun hand => hx hand.1), splitUU_delim ys h3]
  | x1 :: x2 :: xs, ys, h1, h2, h3 => by
    have h1' : hasAdjUU (x2 :: xs) = false := by
      rw [hasAdjUU, Bool.or_eq_false_iff] at h1
      exact h1.2
    have hx12 : ¬(x1 = '_' ∧ x2 = '_') := by
      rw [hasAdjUU, Bool.or_eq_false_iff] at h1
      intro hand
      rw [hand.1, hand.2] at h1
      simpa using h1.1
    have h2' : (x2 :: xs).getLast? ≠ some '_' := by
      rwa [List.getLast?_cons_cons] at h2
    have ih := splitUU_append (x2 :: xs) ys h1' h2' h3
    simp only [List.cons_append] at ih ⊢
    rw [splitUU, if_neg hx12, ih]

lemma hasAdjUU_of_no_underscore : ∀ (l : List Char), '_' ∉ l → hasAdjUU l = false
  | [], _ => rfl
  | [_], _ => rfl
  | c1 :: c2 :: rest, h => by
    have h1 : c1 ≠ '_' := fun he => h (by rw [he]; exact List.mem_cons_self _ _)
    have ih := hasAdjUU_of_no_underscore (c2 :: rest)
      (fun hm => h (List.mem_cons_of_mem _ hm))
    rw [hasAdjUU, ih, Bool.or_false, Bool.and_eq_false_iff]
    left
    simpa using h1

lemma getLast?_ne_underscore_of_not_mem :
    ∀ (l : List Char), '_' ∉ l → l.getLast? ≠ some '_'
  | [], _ => by simp
  | [c], h => by
    have : c ≠ '_' := fun he => h (by rw [he]; exact List.mem_cons_self _ _)
    simpa using this
  | c1 :: c2 :: rest, h => by
    rw [List.getLast?_cons_cons]
    exact getLast?_ne_underscore_of_not_mem (c2 :: rest)
      (fun hm => h (List.mem_cons_of_mem _ hm))

/-- The generated ownerID `host ++ "+" ++ u1 ++ u2` holds no `"__"`
occurrence as long as the host token holds none and the random parts
hold no underscore at all. -/
lemma genUuidL_no_adj (host u1 u2 : List Char) (hh : hasAdjUU host = false)
    (h1 : '_' ∉ u1) (h2 : '_' ∉ u2) :
    hasAdjUU (genUuidL host u1 u2) = false := by
  have hplus : '_' ∉ '+' :: (u1 ++ u2) := by
    intro hm
    rcases List.mem_cons.mp hm with he | hm'
    · exact absurd he.symm (by decide)
    · rcases List.mem_append.mp hm' with hm1 | hm2
      · exact h1 hm1
      · exact h2 hm2
  unfold genUuidL
  induction host with
  | nil => exact hasAdjUU_of_no_underscore _ hplus
  | cons a host ih =>
    cases host with
    | nil =>
      rw [List.cons_append, List.nil_append, hasAdjUU,
        hasAdjUU_of_no_underscore _ hplus, Bool.or_false,
        Bool.and_eq_false_iff]
      right
      decide
    | cons b host' =>
      rw [hasAdjUU, Bool.or_eq_false_iff] at hh
      rw [List.cons_append, List.cons_append, hasAdjUU, Bool.or_eq_false_iff]
      refine ⟨hh.1, ?_⟩
      have := ih hh.2
      rwa [List.cons_append] at this

lemma genUuidL_last (host u1 u2 : List Char) (h1 : '_' ∉ u1) (h2 : '_' ∉ u2) :
    (genUuidL host u1 u2).getLast? ≠ some '_' := by
  have hplus : '_' ∉ '+' :: (u1 ++ u2) := by
    intro hm
    rcases List.mem_cons.mp hm with he | hm'
    · exact absurd he.symm (by decide)
    · rcases List.mem_append.mp hm' with hm1 | hm2
      · exact h1 hm1
      · exact h2 hm2
  unfold genUuidL
  rw [List.getLast?_append_cons]
  exact getLast?_ne_underscore_of_not_mem _ hplus

/-- C9, counterexample: for a host token that itself contains the
delimiter `"__"` (here `"a__b"`), the generated ownerID contains the
delimiter, `split('__')` yields three parts instead of two, and the
two-variable unpacking of `nextInLine.split('__')` fails — the
serialized ticket does not round-trip, so the claim's "for every
possible host token" is false. -/
theorem ticket_round_trip_cex :
    parseTicketL (mkTimestampedKeyL
      (genUuidL ['a', '_', '_', 'b'] ['0'] ['1']) ['2']) = none := by
  decide

/-- C9, amended: serialization round-trips — splitting the serialized
ticket at the delimiter returns exactly the pair (ownerID, issuedAt) —
for every host token that contains no `"__"` occurrence, with the two
random identifiers and the formatted timestamp underscore-free (true
of `uuid4` output and `"%f"` output); it does *not* hold for every
possible host token, since a token containing `"__"` breaks it. -/
theorem ticket_round_trip_amended (host u1 u2 ts : List Char)
    (hh : hasAdjUU host = false) (h1 : '_' ∉ u1) (h2 : '_' ∉ u2)
    (h3 : '_' ∉ ts) :
    parseTicketL (mkTimestampedKeyL (genUuidL host u1 u2) ts) =
      some (genUuidL host u1 u2, ts) := by
  have hsplit := splitUU_append (genUuidL host u1 u2) ts
    (genUuidL_no_adj host u1 u2 hh h1 h2)
    (genUuidL_last host u1 u2 h1 h2) h3
  unfold mkTimestampedKeyL
  rw [parseTicketL, hsplit]

/-- C9, witness: a concrete well-formed ticket round-trips. -/
theorem ticket_round_trip_witness :
    parseTicketL (mkTimestampedKeyL
        (genUuidL ['h', '_', 's', 't'] ['a', '-', 'b'] ['c']) ['1', '.', '5']) =
      some (genUuidL ['h', '_', 's', 't'] ['a', '-', 'b'] ['c'], ['1', '.', '5']) :=
  ticket_round_trip_amended ['h', '_', 's', 't'] ['a', '-', 'b'] ['c']
    ['1', '.', '5'] (by decide) (by decide) (by decide) (by decide)

end SafeRedisLock
